import Mathlib

/-!
# Verification of the RRF licence-map core (`rrf.py`)

Shallow embedding of the ingestion/normalisation pipeline (Python side) and the
presentation-layer filtering, availability, proximity-search and clustering
logic (JavaScript side, generated by `build_html`).  Numeric values are
modelled as exact rationals; fallible operations (Python `float(...)`,
`pyproj` transforms, JS `Date` parsing) are modelled with `Option`.
-/

/- ## String helpers: substring test, mirroring Python `in` / JS `includes` -/

/-- Is the first list a leading segment of the second? -/
def charLead : List Char → List Char → Bool
  | [], _ => true
  | _ :: _, [] => false
  | a :: as, b :: bs => a == b && charLead as bs

/-- Does the second list contain the first as a contiguous segment? -/
def charSub (sub : List Char) : List Char → Bool
  | [] => sub.isEmpty
  | b :: bs => charLead sub (b :: bs) || charSub sub bs

/-- `hasSub s sub` iff `sub` occurs inside `s` (Python `sub in s`, JS `s.includes(sub)`). -/
def hasSub (s sub : String) : Bool := charSub sub.data s.data

/-- Python `.upper()` / JS `.toUpperCase()`: uppercase each character.  (Same
character map as `String.toUpper`, but structurally recursive so that concrete
instances reduce.) -/
def strUpper (s : String) : String := ⟨s.data.map Char.toUpper⟩

/-- Python `.lower()` / JS `.toLowerCase()`. -/
def strLower (s : String) : String := ⟨s.data.map Char.toLower⟩

/-- JS `.trim()`: strip leading and trailing whitespace. -/
def strTrim (s : String) : String :=
  ⟨((s.data.dropWhile Char.isWhitespace).reverse.dropWhile Char.isWhitespace).reverse⟩

/- ## Raw registry values (Python side) -/

/-- A raw numeric field: absent (`None`/missing key), present but rejected by
`float(...)` (which raises), or a numeric value (floats modelled as exact rationals). -/
inductive RawNum where
  | absent
  | nonNumeric
  | num (q : ℚ)
deriving DecidableEq

/-- `float(x)` in the source: the value, or `none` for a raised exception. -/
def floatRaw : RawNum → Option ℚ
  | .num q => some q
  | _ => none

/-- A raw field that may hold a string: absent (`None`), a non-string value,
or a string. -/
inductive RawStr where
  | absent
  | nonStr
  | str (s : String)
deriving DecidableEq

/-- Raw `locationDistrictCodes`: absent, a bare string, or a list of strings
(`normalise_records` wraps a bare string in a one-element list). -/
inductive RawDistricts where
  | dabsent
  | dstr (s : String)
  | dlist (l : List String)
deriving DecidableEq

/-- One entry of `locationGeoReferences`.  `easting`/`northing` are `none` when
the key is missing or `float(...)` would raise; either way `pick_lat_lon`
swallows the exception. -/
structure GeoRef where
  type : Option String := none
  easting : Option ℚ := none
  northing : Option ℚ := none
deriving DecidableEq

/-- A pyproj transform: takes `(x, y)`, returns `(x', y')`, `none` models a
raised exception (swallowed by the caller). -/
def GeoTrans : Type := ℚ → ℚ → Option (ℚ × ℚ)

/-- An optionally-available transform (`pyproj` is an optional dependency, and
`Transformer.from_crs` may itself fail, leaving the variable `None`). -/
def OptGeoTrans : Type := Option GeoTrans

/-- A raw registry record, with exactly the fields `normalise_records` reads. -/
structure RawRecord where
  id : Option String := none
  licenceNo : Option String := none
  licensee : Option String := none
  location : Option String := none
  power : Option String := none
  configType : Option String := none
  licenceTypeCode : Option String := none
  licenceTypeDescription : Option String := none
  licenceStatus : Option String := none
  suppressed : Option String := none
  locationGeoReferences : List GeoRef := []
  lowerBound : RawNum := .absent
  upperBound : RawNum := .absent
  refFrequency : RawNum := .absent
  locationDistrictCodes : RawDistricts := .dabsent
  commencementDate : RawStr := .absent
  expiryDate : RawStr := .absent
  certificationDate : RawStr := .absent
  lastUpdatedDate : RawStr := .absent

/-- A normalised record, the dict built by `normalise_records`.  The raw bound
fields are stored through unchanged (`"lowerBoundMHz": lower`), so they keep
the raw type. -/
structure NRecord where
  id : Option String
  licenceNo : Option String
  licensee : Option String
  location : Option String
  locationDistrictCodes : List String
  refFrequencyMHz : Option ℚ
  bandCode : String
  lowerBoundMHz : RawNum
  upperBoundMHz : RawNum
  bandwidthMHz : Option ℚ
  power : Option String
  configType : Option String
  licenceTypeCode : Option String
  licenceTypeDescription : Option String
  licenceStatus : Option String
  suppressed : Option String
  commencementDate : Option String
  expiryDate : Option String
  certificationDate : Option String
  lastUpdatedDate : Option String
  lat : Option ℚ
  lon : Option ℚ
  geoSource : String
deriving DecidableEq

/- ## Band / carrier classification -/

/-- The fixed ordered band table `BAND_DEFS`: code, label, (min MHz, max MHz). -/
def BAND_DEFS : List (String × String × ℚ × ℚ) :=
  [("b28", "LTE B28 (700)", 703, 803),
   ("b5", "LTE B5 (850)", 824, 894),
   ("b8", "LTE B8 (900)", 880, 960),
   ("b3", "LTE B3 (1800)", 1710, 1880),
   ("b1", "LTE/UMTS B1 (2100)", 1920, 2170),
   ("b40", "LTE B40 (2300)", 2300, 2400),
   ("b7", "LTE B7 (2600)", 2500, 2690),
   ("n78", "NR n78 (3500)", 3300, 3800),
   ("n258", "NR n258 (26GHz)", 24250, 27500)]

/-- The `for` loop of `classify_band`: first band whose inclusive range
contains the value, else `"other"`. -/
def scanBands (mhz : ℚ) : List (String × String × ℚ × ℚ) → String
  | [] => "other"
  | (code, _, lo, hi) :: rest =>
    if lo ≤ mhz ∧ mhz ≤ hi then code else scanBands mhz rest

/-- `classify_band` from the source. -/
def classify_band : Option ℚ → String
  | none => "unknown"
  | some mhz => scanBands mhz BAND_DEFS

/-- `carrier_key_from_licensee` from the source (`if not licensee` is true for
`None` and for the empty string). -/
def carrier_key_from_licensee (licensee : Option String) : String :=
  match licensee with
  | none => "unknown"
  | some t =>
    if t.isEmpty then "unknown"
    else
      let s := strUpper t
      if hasSub s "TWO DEGREES" then "2degrees"
      else if hasSub s "SPARK" then "spark"
      else if hasSub s "ONE NEW ZEALAND" || hasSub s "ONE NZ" || hasSub s "VODAFONE" then "one"
      else if hasSub s "RURAL" then "rcg"
      else if hasSub s "TŪ ĀTEA" || hasSub s "TU ATEA" then "tuatea"
      else if hasSub s "UBER" then "uber"
      else "unknown"

/- ## Geo handling: `pick_lat_lon` -/

/-- `(g.get("type") or "").upper()`. -/
def upperType (g : GeoRef) : String := strUpper (g.type.getD "")

/-- One direct-tag attempt of `pick_lat_lon`'s first loop body, for tag `t` on
entry `g`: easting is read as lon, northing as lat, the tag's transform (4167
for `D2000`, 4272 for `D`) is applied when registered, and the candidate is
accepted only inside the plausibility box `-60 < lat < -20 ∧ 150 < lon < 190`.
Any failure (missing/unparseable field, raising transform) yields `none`,
which the caller skips.  `directTransform` is the `if/elif` transform dispatch
of that loop body; `tryDirect` is the rest. -/
def directTransform (t4167 t4272 : OptGeoTrans) (t : String) (lon0 lat0 : ℚ) :
    Option (ℚ × ℚ) :=
  if t == "D2000" then
    match t4167 with
    | some f => f lon0 lat0
    | none => some (lon0, lat0)
  else if t == "D" then
    match t4272 with
    | some f => f lon0 lat0
    | none => some (lon0, lat0)
  else some (lon0, lat0)

def tryDirect (t4167 t4272 : OptGeoTrans) (t : String) (g : GeoRef) : Option (ℚ × ℚ) :=
  if upperType g == t then
    match g.easting, g.northing with
    | some lon0, some lat0 =>
      match directTransform t4167 t4272 t lon0 lat0 with
      | some (lon, lat) =>
        if -60 < lat ∧ lat < -20 ∧ 150 < lon ∧ lon < 190 then some (lat, lon) else none
      | none => none
    | _, _ => none
  else none

/-- One TM2000 attempt of `pick_lat_lon`'s second loop body on entry `g`: on
the first TM2000-tagged entry with no 2193 transform the function returns the
distinguishable `"TM2000(no-pyproj)"` tag; otherwise a successful transform is
returned unconditionally (no bounding-box check); a parse/transform failure is
skipped. -/
def tryTM2000 (t2193 : OptGeoTrans) (g : GeoRef) : Option (Option ℚ × Option ℚ × String) :=
  if upperType g == "TM2000" then
    match t2193 with
    | none => some (none, none, "TM2000(no-pyproj)")
    | some f =>
      match g.easting, g.northing with
      | some e, some n =>
        match f e n with
        | some (lon, lat) => some (some lat, some lon, "TM2000")
        | none => none
      | _, _ => none
  else none

/-- `pick_lat_lon` from the source: returns `(lat, lon, sourceType)`. -/
def pick_lat_lon (geo_refs : List GeoRef) (t2193 t4167 t4272 : OptGeoTrans) :
    Option ℚ × Option ℚ × String :=
  if geo_refs.isEmpty then (none, none, "None")
  else
    match (["D", "D2000"] : List String).findSome?
        (fun t => (geo_refs.findSome? (tryDirect t4167 t4272 t)).map (fun p => (p, t))) with
    | some pt => (some pt.1.1, some pt.1.2, pt.2)
    | none =>
      match geo_refs.findSome? (tryTM2000 t2193) with
      | some res => res
      | none => (none, none, "Unknown")

/- ## Normalisation -/

/-- `iso_date_or_none` from the source: `None` for falsy or non-string values,
otherwise the string unchanged — no date parsing happens. -/
def iso_date_or_none : RawStr → Option String
  | .str s => if s.isEmpty then none else some s
  | _ => none

/-- The inline bandwidth computation of `normalise_records`:
`float(upper) - float(lower)` when both bounds are present, `None` when either
is absent or `float` raises. -/
def bandwidthOf (lower upper : RawNum) : Option ℚ :=
  match lower, upper with
  | .absent, _ => none
  | _, .absent => none
  | lower, upper =>
    match floatRaw upper, floatRaw lower with
    | some u, some l => some (u - l)
    | _, _ => none

/-- The district-code normalisation: `r.get(...) or []`, then a bare string is
wrapped in a singleton list. -/
def districtsOf : RawDistricts → List String
  | .dabsent => []
  | .dstr s => if s.isEmpty then [] else [s]
  | .dlist l => l

/-- The loop body of `normalise_records` for one surviving record.  The three
transforms are parameters (built once from pyproj availability in the source). -/
def normalise_one (t2193 t4167 t4272 : OptGeoTrans) (r : RawRecord) : NRecord :=
  let pl := pick_lat_lon r.locationGeoReferences t2193 t4167 t4272
  let ref_mhz := floatRaw r.refFrequency
  { id := r.id
    licenceNo := r.licenceNo
    licensee := r.licensee
    location := r.location
    locationDistrictCodes := districtsOf r.locationDistrictCodes
    refFrequencyMHz := ref_mhz
    bandCode := classify_band ref_mhz
    lowerBoundMHz := r.lowerBound
    upperBoundMHz := r.upperBound
    bandwidthMHz := bandwidthOf r.lowerBound r.upperBound
    power := r.power
    configType := r.configType
    licenceTypeCode := r.licenceTypeCode
    licenceTypeDescription := r.licenceTypeDescription
    licenceStatus := r.licenceStatus
    suppressed := r.suppressed
    commencementDate := iso_date_or_none r.commencementDate
    expiryDate := iso_date_or_none r.expiryDate
    certificationDate := iso_date_or_none r.certificationDate
    lastUpdatedDate := iso_date_or_none r.lastUpdatedDate
    lat := pl.1
    lon := pl.2.1
    geoSource := pl.2.2 }

/-- `normalise_records` from the source: drop receive-only records
(`configType == "RCV"`, case-insensitively), normalise the rest. -/
def normalise_records (t2193 t4167 t4272 : OptGeoTrans) (records : List RawRecord) :
    List NRecord :=
  (records.filter (fun r => strUpper (r.configType.getD "") != "RCV")).map
    (normalise_one t2193 t4167 t4272)

/- ## C9: band classification -/

theorem scanBands_eq_find (mhz : ℚ) (l : List (String × String × ℚ × ℚ)) :
    scanBands mhz l =
      ((l.find? (fun d => decide (d.2.2.1 ≤ mhz ∧ mhz ≤ d.2.2.2))).map (fun d => d.1)).getD
        "other" := by
  induction l with
  | nil => rfl
  | cons d rest ih =>
    obtain ⟨code, label, lo, hi⟩ := d
    by_cases h : lo ≤ mhz ∧ mhz ≤ hi
    · rw [List.find?_cons_of_pos _ (by simpa using h)]
      simp [scanBands, h]
    · rw [List.find?_cons_of_neg _ (by simpa using h)]
      simpa [scanBands, h] using ih

/-- C9: `classify_band` returns, for every frequency, the code of the first
entry of the fixed ordered band table whose inclusive range contains it; a
null frequency yields `"unknown"`, a value contained in no range yields
`"other"`, and 750 MHz yields `"b28"`. -/
theorem classify_band_first_match :
    classify_band none = "unknown" ∧
    (∀ x : ℚ, classify_band (some x) =
      ((BAND_DEFS.find? (fun d => decide (d.2.2.1 ≤ x ∧ x ≤ d.2.2.2))).map (fun d => d.1)).getD
        "other") ∧
    (∀ x : ℚ, (∀ d ∈ BAND_DEFS, ¬(d.2.2.1 ≤ x ∧ x ≤ d.2.2.2)) →
      classify_band (some x) = "other") ∧
    classify_band (some 750) = "b28" := by
  refine ⟨rfl, fun x => scanBands_eq_find x BAND_DEFS, fun x hx => ?_, ?_⟩
  · rw [classify_band, scanBands_eq_find]
    rw [List.find?_eq_none.mpr (fun d hd => by simpa using hx d hd)]
    rfl
  · norm_num [classify_band, BAND_DEFS, scanBands]

/-- A concrete frequency (1 MHz) lying in none of the table's ranges. -/
theorem classify_band_first_match_witness :
    classify_band (some 1) = "other" :=
  classify_band_first_match.2.2.1 1 (by decide)

/- ## C1: bandwidth sign -/

/-- A raw record with inverted bounds: `lowerBound = 10`, `upperBound = 5`. -/
def rawInvertedBounds : RawRecord := { lowerBound := .num 10, upperBound := .num 5 }

/-- C1 counterexample: a raw record with both bounds numeric but inverted
survives normalisation with a strictly negative `bandwidthMHz`; the code
computes `float(upper) - float(lower)` with no sign guard. -/
theorem bandwidth_negative_counterexample :
    normalise_one none none none rawInvertedBounds ∈
      normalise_records none none none [rawInvertedBounds] ∧
    (normalise_one none none none rawInvertedBounds).bandwidthMHz = some (5 - 10) ∧
    (5 - 10 : ℚ) < 0 :=
  ⟨List.mem_singleton_self _, rfl, by norm_num⟩

/-- C1 amended: for every record surviving normalisation, `bandwidthMHz` is
either `none` (some bound absent or non-numeric) or equal to
`upperBound - lowerBound`; the difference is non-negative whenever
`lowerBound ≤ upperBound`, but may be negative for inverted bounds. -/
theorem bandwidth_null_or_difference (t2193 t4167 t4272 : OptGeoTrans)
    (records : List RawRecord) (r : NRecord)
    (hr : r ∈ normalise_records t2193 t4167 t4272 records) :
    r.bandwidthMHz = none ∨
      ∃ a b : ℚ, r.lowerBoundMHz = .num a ∧ r.upperBoundMHz = .num b ∧
        r.bandwidthMHz = some (b - a) ∧ (a ≤ b → ∀ q, r.bandwidthMHz = some q → 0 ≤ q) := by
  rw [normalise_records] at hr
  obtain ⟨raw, _, rfl⟩ := List.mem_map.mp hr
  rcases hl : raw.lowerBound with _ | _ | a <;> rcases hu : raw.upperBound with _ | _ | b <;>
    simp [normalise_one, bandwidthOf, floatRaw, hl, hu]

/-- Witness for the amended C1: the inverted-bounds record instantiates the
second disjunct. -/
theorem bandwidth_null_or_difference_witness :
    (normalise_one none none none rawInvertedBounds).bandwidthMHz = none ∨
      ∃ a b : ℚ,
        (normalise_one none none none rawInvertedBounds).lowerBoundMHz = .num a ∧
        (normalise_one none none none rawInvertedBounds).upperBoundMHz = .num b ∧
        (normalise_one none none none rawInvertedBounds).bandwidthMHz = some (b - a) ∧
        (a ≤ b → ∀ q,
          (normalise_one none none none rawInvertedBounds).bandwidthMHz = some q → 0 ≤ q) :=
  bandwidth_null_or_difference none none none [rawInvertedBounds] _
    (List.mem_singleton_self _)

/- ## C3 / C4: shape of `pick_lat_lon` results -/

theorem tryDirect_bounds (t4167 t4272 : OptGeoTrans) (t : String) (g : GeoRef)
    (la lo : ℚ) (h : tryDirect t4167 t4272 t g = some (la, lo)) :
    -60 < la ∧ la < -20 ∧ 150 < lo ∧ lo < 190 := by
  rw [tryDirect] at h
  repeat' split at h
  all_goals first
    | (rw [Option.some.injEq, Prod.mk.injEq] at h
       obtain ⟨rfl, rfl⟩ := h
       assumption)
    | exact absurd h (by simp)

theorem tryTM2000_shape (t2193 : OptGeoTrans) (g : GeoRef)
    (res : Option ℚ × Option ℚ × String) (h : tryTM2000 t2193 g = some res) :
    res = (none, none, "TM2000(no-pyproj)") ∨
      ∃ la lo : ℚ, res = (some la, some lo, "TM2000") := by
  unfold tryTM2000 at h
  repeat' split at h
  all_goals first
    | (rw [Option.some.injEq] at h; subst h; simp)
    | exact absurd h (by simp)

/-- Shape lemma for `pick_lat_lon`: lat and lon are both `some` or both
`none`, and a result tagged with a direct tag carries in-box coordinates. -/
theorem pick_lat_lon_shape (geo_refs : List GeoRef) (t2193 t4167 t4272 : OptGeoTrans) :
    ((pick_lat_lon geo_refs t2193 t4167 t4272).1.isSome =
      (pick_lat_lon geo_refs t2193 t4167 t4272).2.1.isSome) ∧
    (((pick_lat_lon geo_refs t2193 t4167 t4272).2.2 = "D" ∨
        (pick_lat_lon geo_refs t2193 t4167 t4272).2.2 = "D2000") →
      ∃ la lo : ℚ,
        (pick_lat_lon geo_refs t2193 t4167 t4272).1 = some la ∧
        (pick_lat_lon geo_refs t2193 t4167 t4272).2.1 = some lo ∧
        -60 < la ∧ la < -20 ∧ 150 < lo ∧ lo < 190) := by
  rw [pick_lat_lon]
  split
  · simp
  · split
    · rename_i pt hfind
      obtain ⟨tg, htg, hsome⟩ := List.exists_of_findSome?_eq_some hfind
      rw [Option.map_eq_some'] at hsome
      obtain ⟨pr, hpr, heq⟩ := hsome
      obtain ⟨g, _, hg⟩ := List.exists_of_findSome?_eq_some hpr
      have hb := tryDirect_bounds t4167 t4272 tg g pr.1 pr.2 (by rw [hg])
      rw [← heq]
      exact ⟨rfl, fun _ => ⟨pr.1, pr.2, rfl, rfl, hb⟩⟩
    · split
      · rename_i res hfind
        obtain ⟨g, _, hg⟩ := List.exists_of_findSome?_eq_some hfind
        rcases tryTM2000_shape t2193 g res hg with rfl | ⟨la, lo, rfl⟩
        · refine ⟨rfl, fun hc => absurd hc (by simp)⟩
        · refine ⟨rfl, fun hc => absurd hc (by simp)⟩
      · exact ⟨rfl, fun hc => absurd hc (by simp)⟩

/-- A raw record whose only geo reference is a direct `D` entry with easting
185 (accepted by the box check, since the box allows lon up to 190). -/
def rawLon185 : RawRecord :=
  { locationGeoReferences := [{ type := some "D", easting := some 185, northing := some (-40) }] }

/-- C3 counterexample: a normalised record with both coordinates present whose
`lon` is 185, outside `(-180, 180)`: the direct-tag plausibility box accepts
longitudes up to 190, so "lon strictly between -180 and 180" fails. -/
theorem latlon_out_of_range_counterexample :
    normalise_one none none none rawLon185 ∈ normalise_records none none none [rawLon185] ∧
    (normalise_one none none none rawLon185).lat = some (-40) ∧
    (normalise_one none none none rawLon185).lon = some 185 ∧
    (normalise_one none none none rawLon185).geoSource = "D" ∧
    ¬((185 : ℚ) < 180) := by
  refine ⟨List.mem_singleton_self _, ?_, ?_, ?_, by norm_num⟩ <;> rfl

/-- C3 amended: for every record surviving normalisation, `lat` and `lon` are
both present or both absent; when the record was resolved from a direct tag
(`geoSource` is `"D"` or `"D2000"`), the coordinates lie in the plausibility
box `lat ∈ (-60, -20)`, `lon ∈ (150, 190)` (so `lon` may legitimately exceed
180); TM2000-resolved coordinates are not range-checked. -/
theorem latlon_both_or_neither (t2193 t4167 t4272 : OptGeoTrans)
    (records : List RawRecord) (r : NRecord)
    (hr : r ∈ normalise_records t2193 t4167 t4272 records) :
    (r.lat.isSome = r.lon.isSome) ∧
    ((r.geoSource = "D" ∨ r.geoSource = "D2000") →
      ∃ la lo : ℚ, r.lat = some la ∧ r.lon = some lo ∧
        -60 < la ∧ la < -20 ∧ 150 < lo ∧ lo < 190) := by
  rw [normalise_records] at hr
  obtain ⟨raw, _, rfl⟩ := List.mem_map.mp hr
  exact pick_lat_lon_shape raw.locationGeoReferences t2193 t4167 t4272

/-- Witness for the amended C3 at the concrete `rawLon185` record. -/
theorem latlon_both_or_neither_witness :
    ((normalise_one none none none rawLon185).lat.isSome =
      (normalise_one none none none rawLon185).lon.isSome) ∧
    (((normalise_one none none none rawLon185).geoSource = "D" ∨
        (normalise_one none none none rawLon185).geoSource = "D2000") →
      ∃ la lo : ℚ, (normalise_one none none none rawLon185).lat = some la ∧
        (normalise_one none none none rawLon185).lon = some lo ∧
        -60 < la ∧ la < -20 ∧ 150 < lo ∧ lo < 190) :=
  latlon_both_or_neither none none none [rawLon185] _ (List.mem_singleton_self _)

/- ## C4: `pick_lat_lon` against the spec's four-step algorithm -/

/-- Modelled from the spec, §4.1 step 2: one candidate for a direct tag.
"Treat its easting as longitude and northing as latitude; if a transform is
registered for that tag's source system, apply it to reproject first.  Accept
the result only if it falls inside the fixed plausibility bounding box
(lat ∈ (−60,−20), lon ∈ (150,190)).  Any resolution/parse failure on one tag
is swallowed." -/
def directCandidateSpec (t4167 t4272 : OptGeoTrans) (t : String) (g : GeoRef) :
    Option (ℚ × ℚ) :=
  if upperType g = t then
    match g.easting, g.northing with
    | some e, some n =>
      let registered : OptGeoTrans :=
        if t = "D2000" then t4167 else if t = "D" then t4272 else none
      let reprojected : Option (ℚ × ℚ) :=
        match registered with
        | some f => f e n
        | none => some (e, n)
      match reprojected with
      | some (lon, lat) =>
        if -60 < lat ∧ lat < -20 ∧ 150 < lon ∧ lon < 190 then some (lat, lon) else none
      | none => none
    | _, _ => none
  else none

/-- Modelled from the spec, §4.1 step 3: a projected/grid-system (TM2000)
candidate under an available transform, "applied and returned unconditionally
(no bounding-box re-check)". -/
def tmCandidateSpec (f : GeoTrans) (g : GeoRef) : Option (ℚ × ℚ) :=
  if upperType g = "TM2000" then
    match g.easting, g.northing with
    | some e, some n => (f e n).map (fun p => (p.2, p.1))
    | _, _ => none
  else none

/-- Modelled from the spec, §4.1, steps 1-4: no entries → `"None"`; the two
direct tags in the fixed order D, D2000, first accepted candidate wins; then
the projected system, with the distinguishable `"TM2000(no-pyproj)"` outcome
when the transform is unavailable; else `"Unknown"`. -/
def pickLatLonSpec (geo_refs : List GeoRef) (t2193 t4167 t4272 : OptGeoTrans) :
    Option ℚ × Option ℚ × String :=
  if geo_refs = [] then (none, none, "None")
  else
    match geo_refs.findSome? (directCandidateSpec t4167 t4272 "D") with
    | some p => (some p.1, some p.2, "D")
    | none =>
      match geo_refs.findSome? (directCandidateSpec t4167 t4272 "D2000") with
      | some p => (some p.1, some p.2, "D2000")
      | none =>
        if geo_refs.any (fun g => upperType g = "TM2000") then
          match t2193 with
          | none => (none, none, "TM2000(no-pyproj)")
          | some f =>
            match geo_refs.findSome? (tmCandidateSpec f) with
            | some p => (some p.1, some p.2, "TM2000")
            | none => (none, none, "Unknown")
        else (none, none, "Unknown")

theorem directCandidateSpec_eq (t4167 t4272 : OptGeoTrans) (t : String) (g : GeoRef) :
    directCandidateSpec t4167 t4272 t g = tryDirect t4167 t4272 t g := by
  simp only [directCandidateSpec, tryDirect, directTransform]
  by_cases h1 : upperType g = t
  · by_cases h2 : t = "D2000"
    · subst h2; simp [h1]
    · by_cases h3 : t = "D"
      · subst h3; simp [h1, h2]
      · simp [h1, h2, h3]
  · simp [h1]

theorem directCandidateSpec_funeq (t4167 t4272 : OptGeoTrans) (t : String) :
    directCandidateSpec t4167 t4272 t = tryDirect t4167 t4272 t :=
  funext (directCandidateSpec_eq t4167 t4272 t)

theorem findSome?_tryTM2000_nopyproj (geo_refs : List GeoRef) :
    geo_refs.findSome? (tryTM2000 none) =
      if geo_refs.any (fun g => upperType g = "TM2000") then
        some (none, none, "TM2000(no-pyproj)")
      else none := by
  induction geo_refs with
  | nil => rfl
  | cons g rest ih =>
    by_cases h : upperType g = "TM2000"
    · simp [List.findSome?_cons, tryTM2000, h]
    · simp [List.findSome?_cons, tryTM2000, h, ih]

theorem findSome?_tryTM2000_some (f : GeoTrans) (geo_refs : List GeoRef) :
    geo_refs.findSome? (tryTM2000 (some f)) =
      (geo_refs.findSome? (tmCandidateSpec f)).map
        (fun p => (some p.1, some p.2, "TM2000")) := by
  induction geo_refs with
  | nil => rfl
  | cons g rest ih =>
    rw [List.findSome?_cons, List.findSome?_cons]
    by_cases h : upperType g = "TM2000"
    · rcases he : g.easting with _ | e <;> rcases hn : g.northing with _ | n
      · simp [tryTM2000, tmCandidateSpec, h, he, hn, ih]
      · simp [tryTM2000, tmCandidateSpec, h, he, hn, ih]
      · simp [tryTM2000, tmCandidateSpec, h, he, hn, ih]
      · rcases hf : f e n with _ | ⟨lon, lat⟩ <;>
          simp [tryTM2000, tmCandidateSpec, h, he, hn, hf, ih]
    · simp [tryTM2000, tmCandidateSpec, h, ih]

theorem pick_lat_lon_eq_spec (geo_refs : List GeoRef) (t2193 t4167 t4272 : OptGeoTrans) :
    pick_lat_lon geo_refs t2193 t4167 t4272 = pickLatLonSpec geo_refs t2193 t4167 t4272 := by
  rw [pick_lat_lon, pickLatLonSpec.eq_def, directCandidateSpec_funeq,
    directCandidateSpec_funeq]
  by_cases he : geo_refs = []
  · simp [he]
  · rw [if_neg (by simpa using he), if_neg he]
    rw [List.findSome?_cons, List.findSome?_cons]
    rcases hD : geo_refs.findSome? (tryDirect t4167 t4272 "D") with _ | pD
    · simp only [Option.map_none', List.findSome?_nil]
      rcases hD2 : geo_refs.findSome? (tryDirect t4167 t4272 "D2000") with _ | pD2
      · simp only [Option.map_none', List.findSome?_nil]
        rcases t2193 with _ | f
        · rw [findSome?_tryTM2000_nopyproj]
          by_cases ha : geo_refs.any (fun g => upperType g = "TM2000") <;> simp [ha]
        · rw [findSome?_tryTM2000_some]
          rcases htm : geo_refs.findSome? (tmCandidateSpec f) with _ | p
          · by_cases ha : geo_refs.any (fun g => upperType g = "TM2000") <;> simp [ha, htm]
          · by_cases ha : geo_refs.any (fun g => upperType g = "TM2000")
            · simp [ha, htm]
            · exfalso
              obtain ⟨g, hg, hv⟩ := List.exists_of_findSome?_eq_some htm
              rw [tmCandidateSpec] at hv
              split at hv
              · rename_i hty
                have ha' : ∀ g ∈ geo_refs, ¬(upperType g = "TM2000") := by simpa using ha
                exact ha' g hg hty
              · exact absurd hv (by simp)
      · simp [Option.map_some']
    · simp [Option.map_some']

/-- C4: `pick_lat_lon` follows the spec's strict four-step priority algorithm
(`pickLatLonSpec`, transcribed from the spec): no entries → `"None"`; tags
`"D"` then `"D2000"`, easting as lon / northing as lat, registered transform
first, plausibility box `lat ∈ (−60,−20)`, `lon ∈ (150,190)`, per-entry
failures swallowed; otherwise a TM2000 entry yields the distinguishable
`"TM2000(no-pyproj)"` when the transform is unavailable and an unconditional
transform result when it is; else `"Unknown"`. -/
theorem pick_lat_lon_follows_spec :
    (∀ (geo_refs : List GeoRef) (t2193 t4167 t4272 : OptGeoTrans),
      pick_lat_lon geo_refs t2193 t4167 t4272 = pickLatLonSpec geo_refs t2193 t4167 t4272) ∧
    pick_lat_lon [{ type := some "TM2000", easting := some 1600000, northing := some 5400000 }]
        none none none = (none, none, "TM2000(no-pyproj)") ∧
    "TM2000(no-pyproj)" ≠ "Unknown" ∧ "TM2000(no-pyproj)" ≠ "None" :=
  ⟨pick_lat_lon_eq_spec, rfl, by decide, by decide⟩

/- ## C2: date fields -/

/-- Modelled from the spec: "each either a valid calendar-date string or
absent".  The registry serves ISO `YYYY-MM-DD...` strings, so a calendar-date
string must at least start with four digits, a dash, an in-range two-digit
month, a dash, and an in-range two-digit day.  (The source code contains no
such check; this predicate only states the claim.) -/
def isCalendarDateString (s : String) : Bool :=
  match s.data with
  | y1 :: y2 :: y3 :: y4 :: '-' :: m1 :: m2 :: '-' :: d1 :: d2 :: _ =>
    (y1.isDigit && y2.isDigit && y3.isDigit && y4.isDigit &&
      m1.isDigit && m2.isDigit && d1.isDigit && d2.isDigit) &&
    (let mo := (m1.toNat - 48) * 10 + (m2.toNat - 48)
     let da := (d1.toNat - 48) * 10 + (d2.toNat - 48)
     decide (1 ≤ mo ∧ mo ≤ 12 ∧ 1 ≤ da ∧ da ≤ 31))
  | _ => false

/-- A raw record whose `commencementDate` is a non-empty but malformed string. -/
def rawBadDate : RawRecord := { commencementDate := .str "not-a-date" }

/-- C2 counterexample: `iso_date_or_none` performs no date parsing, so a
malformed non-empty date string survives normalisation verbatim instead of
becoming absent. -/
theorem malformed_date_kept_counterexample :
    normalise_one none none none rawBadDate ∈
      normalise_records none none none [rawBadDate] ∧
    (normalise_one none none none rawBadDate).commencementDate = some "not-a-date" ∧
    isCalendarDateString "not-a-date" = false :=
  ⟨List.mem_singleton_self _, rfl, by decide⟩

/-- C2 amended: each of the four date fields of a normalised record is
`iso_date_or_none` of the raw field, which is absent exactly when the raw
value is `None`, not a string, or the empty string — and otherwise is the raw
string passed through unvalidated.  A falsy/non-string date never discards
the record; the rest of the record is kept. -/
theorem date_fields_passthrough (t2193 t4167 t4272 : OptGeoTrans)
    (records : List RawRecord) (r : NRecord)
    (hr : r ∈ normalise_records t2193 t4167 t4272 records) :
    (∃ raw ∈ records, r = normalise_one t2193 t4167 t4272 raw ∧
      r.commencementDate = iso_date_or_none raw.commencementDate ∧
      r.expiryDate = iso_date_or_none raw.expiryDate ∧
      r.certificationDate = iso_date_or_none raw.certificationDate ∧
      r.lastUpdatedDate = iso_date_or_none raw.lastUpdatedDate) ∧
    (∀ v : RawStr, iso_date_or_none v = none ∨
      ∃ s, v = .str s ∧ ¬s.isEmpty = true ∧ iso_date_or_none v = some s) := by
  constructor
  · rw [normalise_records] at hr
    obtain ⟨raw, hmem, rfl⟩ := List.mem_map.mp hr
    exact ⟨raw, (List.mem_filter.mp hmem).1, rfl, rfl, rfl, rfl, rfl⟩
  · intro v
    rcases v with _ | _ | s
    · exact Or.inl rfl
    · exact Or.inl rfl
    · by_cases hs : s.isEmpty
      · exact Or.inl (by simp [iso_date_or_none, hs])
      · exact Or.inr ⟨s, rfl, by simpa using hs, by simp [iso_date_or_none, hs]⟩

/-- Witness for the amended C2 at the concrete malformed-date record. -/
theorem date_fields_passthrough_witness :
    (∃ raw ∈ [rawBadDate],
      normalise_one none none none rawBadDate = normalise_one none none none raw ∧
      (normalise_one none none none rawBadDate).commencementDate =
        iso_date_or_none raw.commencementDate ∧
      (normalise_one none none none rawBadDate).expiryDate =
        iso_date_or_none raw.expiryDate ∧
      (normalise_one none none none rawBadDate).certificationDate =
        iso_date_or_none raw.certificationDate ∧
      (normalise_one none none none rawBadDate).lastUpdatedDate =
        iso_date_or_none raw.lastUpdatedDate) ∧
    (∀ v : RawStr, iso_date_or_none v = none ∨
      ∃ s, v = .str s ∧ ¬s.isEmpty = true ∧ iso_date_or_none v = some s) :=
  date_fields_passthrough none none none [rawBadDate] _ (List.mem_singleton_self _)

/- ## Presentation layer (the page script generated by `build_html`) -/

/-- A record as the page script sees it: the JSON fields it reads plus the
decoration field `carrierKey` added in `init`. -/
structure UIRecord where
  licensee : Option String := none
  location : Option String := none
  locationDistrictCodes : List String := []
  bandCode : String := "unknown"
  carrierKey : String := "unknown"
  commencementDate : Option String := none
  expiryDate : Option String := none
  refFrequencyMHz : Option ℚ := none
  lat : Option ℚ := none
  lon : Option ℚ := none
deriving DecidableEq

/-- `carrierKeyFromLicensee` in the page script: the same rules, character for
character, as the Python `carrier_key_from_licensee`. -/
def carrierKeyFromLicensee : Option String → String := carrier_key_from_licensee

/-- `init`: `DATA = DATA.filter(record => carrierKeyFromLicensee(record.licensee) !== "uber")`
followed by the decoration loop `r.carrierKey = carrierKeyFromLicensee(r.licensee)`. -/
def loadInit (data : List UIRecord) : List UIRecord :=
  (data.filter (fun r => carrierKeyFromLicensee r.licensee != "uber")).map
    (fun r => { r with carrierKey := carrierKeyFromLicensee r.licensee })

/-- `parseISO` from the page script.  `dparse` is the JS `new Date(s)` +
`isNaN` guard, kept as a parameter since JS date parsing is
environment-dependent; `none` models an invalid date. -/
def parseISO (dparse : String → Option ℤ) : Option String → Option ℤ
  | none => none
  | some s => if s.isEmpty then none else dparse s

/-- `parseDate` from the page script (date filter inputs): appends
`"T00:00:00"` before parsing, falsy input gives `null`. -/
def parseDate (dparse : String → Option ℤ) (value : String) : Option ℤ :=
  if value.isEmpty then none else dparse (value ++ "T00:00:00")

/-- The filter state built by `getFilters`. -/
structure Filters where
  locationText : String := ""
  district : String := ""
  commFrom : Option ℤ := none
  commTo : Option ℤ := none
  expFrom : Option ℤ := none
  expTo : Option ℤ := none
deriving DecidableEq

/-- `getFilters` from the page script. -/
def getFilters (dparse : String → Option ℤ)
    (qLocation qDistrict qCommFrom qCommTo qExpFrom qExpTo : String) : Filters :=
  { locationText := strLower (strTrim qLocation)
    district := qDistrict
    commFrom := parseDate dparse qCommFrom
    commTo := parseDate dparse qCommTo
    expFrom := parseDate dparse qExpFrom
    expTo := parseDate dparse qExpTo }

/-- JS `bound && value < bound` on `Date`-or-null: both checks only fire when
the bound is a real date, and the flow guarantees `value` is non-null whenever
a bound is set (the preceding line has already returned otherwise). -/
def optLt (value bound : Option ℤ) : Bool :=
  match bound, value with
  | some b, some v => decide (v < b)
  | _, _ => false

/-- JS `bound && value > bound`, see `optLt`. -/
def optGt (value bound : Option ℤ) : Bool :=
  match bound, value with
  | some b, some v => decide (b < v)
  | _, _ => false

/-- The record-side parse `parseISO(r.commencementDate)` in `passesBaseFilters`. -/
def commParsed (dparse : String → Option ℤ) (r : UIRecord) : Option ℤ :=
  parseISO dparse r.commencementDate

/-- The record-side parse
`r.expiryDate ? parseISO(r.expiryDate + "T00:00:00") : null`. -/
def expParsed (dparse : String → Option ℤ) (r : UIRecord) : Option ℤ :=
  match r.expiryDate with
  | none => none
  | some s => if s.isEmpty then none else parseISO dparse (some (s ++ "T00:00:00"))

/-- `passesBaseFilters` from the page script: location substring
(case-insensitive), exact district membership, inclusive commencement and
expiry date ranges. -/
def passesBaseFilters (dparse : String → Option ℤ) (r : UIRecord) (f : Filters) : Bool :=
  if !f.locationText.isEmpty &&
      !hasSub (strLower (r.location.getD "")) f.locationText then false
  else if !f.district.isEmpty && !(r.locationDistrictCodes.contains f.district) then false
  else
    let c := commParsed dparse r
    if (f.commFrom.isSome || f.commTo.isSome) && c.isNone then false
    else if optLt c f.commFrom then false
    else if optGt c f.commTo then false
    else
      let e := expParsed dparse r
      if (f.expFrom.isSome || f.expTo.isSome) && e.isNone then false
      else if optLt e f.expFrom then false
      else if optGt e f.expTo then false
      else true

/-- `r.carrierKey || "unknown"` / `r.bandCode || "unknown"`: JS `||` replaces
a falsy (empty) string. -/
def orUnknown (s : String) : String := if s.isEmpty then "unknown" else s

/-- The carrier/band selection test applied by `refresh` after the base
filters (an empty selection set means "all"). -/
def passesFacets (carrierSelected bandSelected : List String) (r : UIRecord) : Bool :=
  if !carrierSelected.isEmpty && !(carrierSelected.contains (orUnknown r.carrierKey)) then
    false
  else if !bandSelected.isEmpty && !(bandSelected.contains (orUnknown r.bandCode)) then
    false
  else true

/-- The filtered record list computed by `refresh`: base filters first, then
the carrier and band selections.  (JS `Set`s are modelled as lists; only
membership and emptiness are used.) -/
def refreshFiltered (dparse : String → Option ℤ) (data : List UIRecord) (f : Filters)
    (carrierSelected bandSelected : List String) : List UIRecord :=
  (data.filter (fun r => passesBaseFilters dparse r f)).filter
    (passesFacets carrierSelected bandSelected)

/- ## C5: filter composition -/

theorem passesFacets_iff (cs bs : List String) (r : UIRecord) :
    passesFacets cs bs r = true ↔
      ((cs = [] ∨ orUnknown r.carrierKey ∈ cs) ∧ (bs = [] ∨ orUnknown r.bandCode ∈ bs)) := by
  rw [passesFacets]
  rcases cs with _ | ⟨c, cs⟩ <;> rcases bs with _ | ⟨b, bs⟩ <;> simp

/-- C5: membership in `refresh`'s filtered result is exactly: in the data,
passing the scalar base filters, carrier key in the carrier selection or that
selection empty, and band code in the band selection or that selection empty.
With carrier selection `["spark"]` and empty band selection, a record with
carrier `"one"` is excluded whatever its band, and every base-passing record
with carrier `"spark"` is included whatever its band. -/
theorem refresh_filter_characterisation :
    (∀ (dparse : String → Option ℤ) (data : List UIRecord) (f : Filters)
        (cs bs : List String) (r : UIRecord),
      r ∈ refreshFiltered dparse data f cs bs ↔
        (r ∈ data ∧ passesBaseFilters dparse r f = true ∧
          (cs = [] ∨ orUnknown r.carrierKey ∈ cs) ∧
          (bs = [] ∨ orUnknown r.bandCode ∈ bs))) ∧
    (∀ (dparse : String → Option ℤ) (data : List UIRecord) (f : Filters)
        (bs : List String) (r : UIRecord), orUnknown r.carrierKey = "one" →
      r ∉ refreshFiltered dparse data f ["spark"] bs) ∧
    (∀ (dparse : String → Option ℤ) (data : List UIRecord) (f : Filters) (r : UIRecord),
      r ∈ data → passesBaseFilters dparse r f = true → orUnknown r.carrierKey = "spark" →
      r ∈ refreshFiltered dparse data f ["spark"] []) := by
  have hmain : ∀ (dparse : String → Option ℤ) (data : List UIRecord) (f : Filters)
      (cs bs : List String) (r : UIRecord),
      r ∈ refreshFiltered dparse data f cs bs ↔
        (r ∈ data ∧ passesBaseFilters dparse r f = true ∧
          (cs = [] ∨ orUnknown r.carrierKey ∈ cs) ∧
          (bs = [] ∨ orUnknown r.bandCode ∈ bs)) := by
    intro dparse data f cs bs r
    rw [refreshFiltered, List.mem_filter, List.mem_filter, passesFacets_iff]
    tauto
  refine ⟨hmain, ?_, ?_⟩
  · intro dparse data f bs r hone hmem
    rcases ((hmain dparse data f ["spark"] bs r).mp hmem).2.2.1 with h | h
    · cases h
    · rw [hone] at h
      simp at h
  · intro dparse data f r hd hb hs
    exact (hmain dparse data f ["spark"] [] r).mpr
      ⟨hd, hb, Or.inr (by rw [hs]; exact List.mem_singleton_self _), Or.inl rfl⟩

/-- Concrete records and empty filter state for the C5 witness. -/
def recSpark : UIRecord := { carrierKey := "spark", bandCode := "b28" }

def recOne : UIRecord := { carrierKey := "one", bandCode := "b3" }

/-- Witness for C5: with carrier selection `["spark"]` and band selection
empty, the `"one"` record is excluded and the `"spark"` record included. -/
theorem refresh_filter_characterisation_witness :
    recOne ∉ refreshFiltered (fun _ => none) [recSpark, recOne] {} ["spark"] [] ∧
    recSpark ∈ refreshFiltered (fun _ => none) [recSpark, recOne] {} ["spark"] [] :=
  ⟨refresh_filter_characterisation.2.1 (fun _ => none) [recSpark, recOne] {} [] recOne
      (by decide),
   refresh_filter_characterisation.2.2 (fun _ => none) [recSpark, recOne] {} recSpark
      (by decide) (by decide) (by decide)⟩

/- ## C6: facet availability -/

/-- `updateAvailability`: carriers with at least one match among the
base-filtered records under the current band selection, excluding `"uber"`. -/
def availCarriers (baseFiltered : List UIRecord) (bandSelected : List String) :
    List String :=
  ((baseFiltered.filter (fun r =>
      bandSelected.isEmpty || bandSelected.contains (orUnknown r.bandCode))).map
    (fun r => orUnknown r.carrierKey)).filter (fun k => k != "uber")

/-- `updateAvailability`: bands with at least one match among the
base-filtered records under the current carrier selection. -/
def availBands (baseFiltered : List UIRecord) (carrierSelected : List String) :
    List String :=
  (baseFiltered.filter (fun r =>
      carrierSelected.isEmpty || carrierSelected.contains (orUnknown r.carrierKey))).map
    (fun r => orUnknown r.bandCode)

/-- `btn.disabled = (!ok && !isSelected)` for a carrier button with key `k`. -/
def carrierBtnDisabled (baseFiltered : List UIRecord)
    (bandSelected carrierSelected : List String) (k : String) : Bool :=
  !((availCarriers baseFiltered bandSelected).contains k) &&
    !(carrierSelected.contains k)

/-- `btn.disabled = (!ok && !isSelected)` for a band button with code `code`. -/
def bandBtnDisabled (baseFiltered : List UIRecord)
    (carrierSelected bandSelected : List String) (code : String) : Bool :=
  !((availBands baseFiltered carrierSelected).contains code) &&
    !(bandSelected.contains code)

/-- `uniqueCarriers` (keys only): carrier keys occurring in the data, skipping
`"uber"`. -/
def uniqueCarrierKeys (data : List UIRecord) : List String :=
  ((data.map (fun r => orUnknown r.carrierKey)).filter (fun k => k != "uber")).dedup

/-- `buildCarrierUI`: carrier buttons exist for the fixed primary and
secondary keys that occur in the data. -/
def carrierButtonKeys (data : List UIRecord) : List String :=
  (["2degrees", "one", "spark"] ++ ["rcg", "tuatea"]).filter
    (fun k => (uniqueCarrierKeys data).contains k)

/-- `buildBandUI`: band buttons are the `BAND_DEFS` codes present in the data,
plus `"unknown"` and `"other"` when present. -/
def bandButtonCodes (data : List UIRecord) : List String :=
  let present := data.map (fun r => orUnknown r.bandCode)
  ((BAND_DEFS.map (fun d => d.1)).filter (fun c => present.contains c)) ++
    (if present.contains "unknown" then ["unknown"] else []) ++
    (if present.contains "other" then ["other"] else [])

theorem mem_availCarriers_iff (baseFiltered : List UIRecord)
    (bandSelected : List String) (k : String) :
    k ∈ availCarriers baseFiltered bandSelected ↔
      (k ≠ "uber" ∧ ∃ r ∈ baseFiltered,
        (bandSelected = [] ∨ orUnknown r.bandCode ∈ bandSelected) ∧
        orUnknown r.carrierKey = k) := by
  rw [availCarriers]
  simp only [List.mem_filter, List.mem_map, List.isEmpty_iff, Bool.or_eq_true,
    List.contains_eq_any_beq, List.any_eq_true, bne_iff_ne, ne_eq, decide_eq_true_eq,
    beq_iff_eq]
  constructor
  · rintro ⟨⟨r, ⟨hr, hsel⟩, rfl⟩, hu⟩
    refine ⟨hu, r, hr, ?_, rfl⟩
    rcases hsel with h | ⟨x, hx, rfl⟩
    · exact Or.inl h
    · exact Or.inr hx
  · rintro ⟨hu, r, hr, hsel, rfl⟩
    refine ⟨⟨r, ⟨hr, ?_⟩, rfl⟩, hu⟩
    rcases hsel with h | hx
    · exact Or.inl h
    · exact Or.inr ⟨_, hx, rfl⟩

theorem mem_availBands_iff (baseFiltered : List UIRecord)
    (carrierSelected : List String) (code : String) :
    code ∈ availBands baseFiltered carrierSelected ↔
      ∃ r ∈ baseFiltered,
        (carrierSelected = [] ∨ orUnknown r.carrierKey ∈ carrierSelected) ∧
        orUnknown r.bandCode = code := by
  rw [availBands]
  simp only [List.mem_map, List.mem_filter, List.isEmpty_iff, Bool.or_eq_true,
    List.contains_eq_any_beq, List.any_eq_true, beq_iff_eq]
  constructor
  · rintro ⟨r, ⟨hr, hsel⟩, rfl⟩
    refine ⟨r, hr, ?_, rfl⟩
    rcases hsel with h | ⟨x, hx, rfl⟩
    · exact Or.inl h
    · exact Or.inr hx
  · rintro ⟨r, hr, hsel, rfl⟩
    refine ⟨r, ⟨hr, ?_⟩, rfl⟩
    rcases hsel with h | hx
    · exact Or.inl h
    · exact Or.inr ⟨_, hx, rfl⟩

theorem carrierButtonKeys_ne_uber (data : List UIRecord) (k : String)
    (hk : k ∈ carrierButtonKeys data) : k ≠ "uber" := by
  rw [carrierButtonKeys] at hk
  have h5 := (List.mem_filter.mp hk).1
  simp only [List.cons_append, List.nil_append, List.mem_cons,
    List.not_mem_nil, or_false] at h5
  rcases h5 with rfl | rfl | rfl | rfl | rfl <;> decide

/-- C6: after every availability recomputation over the base-filtered records,
a facet button is enabled (`disabled = false`) iff its value is matched by at
least one base-filtered record under the other facet's current selection, or
it is currently selected.  In particular a currently-selected option is never
disabled, even with zero matching records. -/
theorem availability_enabled_iff :
    (∀ (baseFiltered : List UIRecord) (bandSel carrierSel : List String) (k : String),
      k ∈ carrierSel → carrierBtnDisabled baseFiltered bandSel carrierSel k = false) ∧
    (∀ (baseFiltered : List UIRecord) (carrierSel bandSel : List String) (code : String),
      code ∈ bandSel → bandBtnDisabled baseFiltered carrierSel bandSel code = false) ∧
    (∀ (data baseFiltered : List UIRecord) (bandSel carrierSel : List String) (k : String),
      k ∈ carrierButtonKeys data →
      (carrierBtnDisabled baseFiltered bandSel carrierSel k = false ↔
        ((∃ r ∈ baseFiltered,
            (bandSel = [] ∨ orUnknown r.bandCode ∈ bandSel) ∧
            orUnknown r.carrierKey = k) ∨ k ∈ carrierSel))) ∧
    (∀ (baseFiltered : List UIRecord) (carrierSel bandSel : List String) (code : String),
      bandBtnDisabled baseFiltered carrierSel bandSel code = false ↔
        ((∃ r ∈ baseFiltered,
            (carrierSel = [] ∨ orUnknown r.carrierKey ∈ carrierSel) ∧
            orUnknown r.bandCode = code) ∨ code ∈ bandSel)) := by
  refine ⟨?_, ?_, ?_, ?_⟩
  · intro baseFiltered bandSel carrierSel k hk
    simp [carrierBtnDisabled, hk]
  · intro baseFiltered carrierSel bandSel code hc
    simp [bandBtnDisabled, hc]
  · intro data baseFiltered bandSel carrierSel k hk
    have hu := carrierButtonKeys_ne_uber data k hk
    constructor
    · intro h
      by_cases hs : k ∈ carrierSel
      · exact Or.inr hs
      · have hs' : carrierSel.contains k = false := by simpa using hs
        rw [carrierBtnDisabled, hs'] at h
        simp only [Bool.not_false, Bool.and_true, Bool.not_eq_false'] at h
        exact Or.inl ((mem_availCarriers_iff baseFiltered bandSel k).mp
          (by simpa using h)).2
    · intro h
      rcases h with h | h
      · have hmem : k ∈ availCarriers baseFiltered bandSel :=
          (mem_availCarriers_iff baseFiltered bandSel k).mpr ⟨hu, h⟩
        simp [carrierBtnDisabled, hmem]
      · simp [carrierBtnDisabled, h]
  · intro baseFiltered carrierSel bandSel code
    constructor
    · intro h
      by_cases hs : code ∈ bandSel
      · exact Or.inr hs
      · have hs' : bandSel.contains code = false := by simpa using hs
        rw [bandBtnDisabled, hs'] at h
        simp only [Bool.not_false, Bool.and_true, Bool.not_eq_false'] at h
        exact Or.inl ((mem_availBands_iff baseFiltered carrierSel code).mp
          (by simpa using h))
    · intro h
      rcases h with h | h
      · have hmem : code ∈ availBands baseFiltered carrierSel :=
          (mem_availBands_iff baseFiltered carrierSel code).mpr h
        simp [bandBtnDisabled, hmem]
      · simp [bandBtnDisabled, h]

/-- Witness for C6: a selected carrier (`"one"`) with zero matching records
stays enabled, and an unmatched, unselected carrier button is disabled. -/
theorem availability_enabled_iff_witness :
    carrierBtnDisabled [recSpark] [] ["one"] "one" = false ∧
    (carrierBtnDisabled [recSpark] [] [] "spark" = false ↔
      ((∃ r ∈ [recSpark],
          (([] : List String) = [] ∨ orUnknown r.bandCode ∈ ([] : List String)) ∧
          orUnknown r.carrierKey = "spark") ∨ "spark" ∈ ([] : List String))) :=
  ⟨availability_enabled_iff.1 [recSpark] [] ["one"] "one" (List.mem_singleton_self _),
   availability_enabled_iff.2.2.1 [recSpark, recOne] [recSpark] [] [] "spark"
      (by decide)⟩

/- ## C7: proximity search (`drawNearestCarrierLines`) -/

/-- JS truthiness of a coordinate (`null` and `0` are falsy). -/
def truthyQ : Option ℚ → Bool
  | none => false
  | some x => x != 0

/-- `findNearest(carrierKey)` inside `drawNearestCarrierLines`: over the
filtered records with truthy coordinates and exactly that carrier key, keep
the record with the strictly smallest squared-difference-in-degrees distance
(the first of equals wins, since the update test is strict `<`). -/
def findNearest (latestFiltered : List UIRecord) (qlat qlon : ℚ) (carrierKey : String) :
    Option (UIRecord × ℚ) :=
  (latestFiltered.filter (fun r =>
      truthyQ r.lat && truthyQ r.lon && r.carrierKey == carrierKey)).foldl
    (fun best r =>
      let dLat := r.lat.getD 0 - qlat
      let dLon := r.lon.getD 0 - qlon
      let dist := dLat * dLat + dLon * dLon
      match best with
      | none => some (r, dist)
      | some (b, bestDist) =>
        if dist < bestDist then some (r, dist) else some (b, bestDist))
    none

/-- `const primaryCarriers = ["2degrees", "one", "spark"]`. -/
def primaryCarriers : List String := ["2degrees", "one", "spark"]

/-- `primaryNearest`: the primary keys that have a candidate, each with its
nearest record and ranking distance. -/
def primaryNearest (latestFiltered : List UIRecord) (qlat qlon : ℚ) :
    List (String × UIRecord × ℚ) :=
  primaryCarriers.filterMap (fun key =>
    (findNearest latestFiltered qlat qlon key).map (fun res => (key, res)))

/-- The body of the `reduce` computing `closestPrimary`. -/
def closestStep (best : Option (UIRecord × ℚ)) (item : String × UIRecord × ℚ) :
    Option (UIRecord × ℚ) :=
  match best with
  | none => some item.2
  | some b => if item.2.2 < b.2 then some item.2 else some b

/-- `closestPrimary`: the reduce over `primaryNearest` keeping the strictly
closer candidate. -/
def closestPrimary (pn : List (String × UIRecord × ℚ)) : Option (UIRecord × ℚ) :=
  pn.foldl closestStep none

/-- The connecting lines drawn by `drawNearestCarrierLines`, as the list of
endpoint records: the secondary (`"rcg"`) line alone when it is strictly
closer than `closestPrimary`, else one line per primary with a candidate. -/
def drawNearestCarrierLines (latestFiltered : List UIRecord) (qlat qlon : ℚ) :
    List UIRecord :=
  let pn := primaryNearest latestFiltered qlat qlon
  let rcgNearest := findNearest latestFiltered qlat qlon "rcg"
  match rcgNearest with
  | some best =>
    match closestPrimary pn with
    | none => [best.1]
    | some cp => if best.2 < cp.2 then [best.1] else pn.map (fun e => e.2.1)
  | none => pn.map (fun e => e.2.1)

theorem closestPrimary_foldl_spec (pn : List (String × UIRecord × ℚ)) :
    ∀ acc : Option (UIRecord × ℚ),
      (pn.foldl closestStep acc = none ↔ (acc = none ∧ pn = [])) ∧
      (∀ b bd, pn.foldl closestStep acc = some (b, bd) →
        ((acc = some (b, bd) ∨ ∃ e ∈ pn, e.2 = (b, bd)) ∧
          (∀ e ∈ pn, bd ≤ e.2.2) ∧
          (∀ a ad, acc = some (a, ad) → bd ≤ ad))) := by
  induction pn with
  | nil =>
    intro acc
    refine ⟨by simp, ?_⟩
    rintro b bd h
    refine ⟨Or.inl h, by simp, fun a ad ha => ?_⟩
    rw [ha] at h
    simp only [List.foldl_nil, Option.some.injEq, Prod.mk.injEq] at h
    exact le_of_eq h.2.symm
  | cons i rest ih =>
    intro acc
    constructor
    · rw [List.foldl_cons]
      rw [(ih (closestStep acc i)).1]
      constructor
      · rintro ⟨hstep, -⟩
        rcases acc with _ | a
        · rw [closestStep] at hstep
          cases hstep
        · rw [closestStep] at hstep
          split at hstep <;> cases hstep
      · rintro ⟨-, h⟩
        cases h
    · intro b bd h
      rw [List.foldl_cons] at h
      obtain ⟨horig, hmin, hacc⟩ := (ih (closestStep acc i)).2 b bd h
      have hstepcases : (closestStep acc i = some i.2) ∨
          (∃ a : UIRecord × ℚ, acc = some a ∧ closestStep acc i = some a ∧ a.2 ≤ i.2.2) := by
        rcases acc with _ | a
        · exact Or.inl rfl
        · rw [closestStep]
          by_cases hlt : i.2.2 < a.2
          · simp [hlt]
          · exact Or.inr ⟨a, rfl, by simp [hlt], by push_neg at hlt; exact hlt⟩
      have hbd_i : bd ≤ i.2.2 := by
        rcases hstepcases with hs | ⟨a, -, hs, hle⟩
        · exact le_trans (hacc i.2.1 i.2.2 (by rw [hs])) le_rfl
        · exact le_trans (hacc a.1 a.2 (by rw [hs])) hle
      refine ⟨?_, ?_, ?_⟩
      · rcases horig with hor | ⟨e, he, hee⟩
        · rcases hstepcases with hs | ⟨a, ha, hs, -⟩
          · rw [hor] at hs
            exact Or.inr ⟨i, List.mem_cons_self _ _, ((Option.some.injEq _ _).mp hs).symm⟩
          · rw [hor] at hs
            rw [ha]
            exact Or.inl (by rw [(Option.some.injEq _ _).mp hs])
        · exact Or.inr ⟨e, List.mem_cons_of_mem _ he, hee⟩
      · intro e he
        rcases List.mem_cons.mp he with rfl | he'
        · exact hbd_i
        · exact hmin e he'
      · intro a ad ha
        by_cases hlt : i.2.2 < ad
        · refine le_trans (hacc i.2.1 i.2.2 ?_) (le_of_lt hlt)
          rw [ha]
          simp [closestStep, hlt]
        · refine hacc a ad ?_
          rw [ha]
          simp [closestStep, hlt]

theorem closestPrimary_none_iff (pn : List (String × UIRecord × ℚ)) :
    closestPrimary pn = none ↔ pn = [] := by
  rw [closestPrimary, (closestPrimary_foldl_spec pn none).1]
  simp

theorem closestPrimary_min (pn : List (String × UIRecord × ℚ)) (b : UIRecord) (bd : ℚ)
    (h : closestPrimary pn = some (b, bd)) :
    (∃ e ∈ pn, e.2 = (b, bd)) ∧ ∀ e ∈ pn, bd ≤ e.2.2 := by
  obtain ⟨horig, hmin, -⟩ := (closestPrimary_foldl_spec pn none).2 b bd h
  rcases horig with hor | hor
  · cases hor
  · exact ⟨hor, hmin⟩

theorem primaryNearest_keys (latestFiltered : List UIRecord) (qlat qlon : ℚ) :
    (primaryNearest latestFiltered qlat qlon).map (fun e => e.1) =
      primaryCarriers.filter
        (fun k => (findNearest latestFiltered qlat qlon k).isSome) := by
  rw [primaryNearest]
  induction primaryCarriers with
  | nil => rfl
  | cons k rest ih =>
    rw [List.filterMap_cons, List.filter_cons]
    rcases h : findNearest latestFiltered qlat qlon k with _ | res
    · simpa [h] using ih
    · simpa [h] using ih

/-- C7: if the nearest `"rcg"` candidate is strictly closer (squared degree
metric) than every primary candidate, exactly one line is drawn — the
secondary's; otherwise one line per primary carrier that has a candidate, in
the fixed primary order, an operator with no candidate contributing nothing. -/
theorem proximity_lines_spec (latestFiltered : List UIRecord) (qlat qlon : ℚ) :
    (∀ r d, findNearest latestFiltered qlat qlon "rcg" = some (r, d) →
      (∀ e ∈ primaryNearest latestFiltered qlat qlon, d < e.2.2) →
      drawNearestCarrierLines latestFiltered qlat qlon = [r]) ∧
    ((findNearest latestFiltered qlat qlon "rcg" = none ∨
      (∃ r d, findNearest latestFiltered qlat qlon "rcg" = some (r, d) ∧
        ∃ e ∈ primaryNearest latestFiltered qlat qlon, e.2.2 ≤ d)) →
      drawNearestCarrierLines latestFiltered qlat qlon =
        (primaryNearest latestFiltered qlat qlon).map (fun e => e.2.1)) ∧
    ((drawNearestCarrierLines latestFiltered qlat qlon =
        (primaryNearest latestFiltered qlat qlon).map (fun e => e.2.1)) →
      (primaryNearest latestFiltered qlat qlon).map (fun e => e.1) =
        primaryCarriers.filter
          (fun k => (findNearest latestFiltered qlat qlon k).isSome)) := by
  refine ⟨?_, ?_, fun _ => primaryNearest_keys latestFiltered qlat qlon⟩
  · intro r d hrcg hcloser
    rw [drawNearestCarrierLines, hrcg]
    rcases hcp : closestPrimary (primaryNearest latestFiltered qlat qlon) with _ | cp
    · rfl
    · obtain ⟨⟨e, he, hee⟩, -⟩ := closestPrimary_min _ cp.1 cp.2 (by rw [hcp])
      have : d < cp.2 := by
        have := hcloser e he
        rw [hee] at this
        exact this
      simp [this]
  · intro hcase
    rcases hcase with hnone | ⟨r, d, hrcg, e, he, hle⟩
    · rw [drawNearestCarrierLines, hnone]
    · rw [drawNearestCarrierLines, hrcg]
      rcases hcp : closestPrimary (primaryNearest latestFiltered qlat qlon) with _ | cp
      · exact absurd he (by rw [(closestPrimary_none_iff _).mp hcp]; simp)
      · obtain ⟨-, hmin⟩ := closestPrimary_min _ cp.1 cp.2 (by rw [hcp])
        have hnlt : ¬((r, d).2 < cp.2) := by
          push_neg
          exact le_trans (hmin e he) hle
        simp [hnlt]

/-- A secondary-carrier record for the C7 witness. -/
def rcgRec : UIRecord := { carrierKey := "rcg", lat := some 5, lon := some 5 }

/-- Witness for C7: with only an `"rcg"` candidate present (no primary
candidates at all), exactly its one line is drawn. -/
theorem proximity_lines_spec_witness :
    drawNearestCarrierLines [rcgRec] 1 1 = [rcgRec] :=
  (proximity_lines_spec [rcgRec] 1 1).1 rcgRec ((5 - 1) * (5 - 1) + (5 - 1) * (5 - 1))
    (by simp [findNearest, truthyQ, rcgRec])
    (by simp [primaryNearest, primaryCarriers, findNearest, truthyQ, rcgRec])

/- ## C10: the permanent "uber" exclusion -/

/-- Sample records for the C10 witness. -/
def recSparkUI : UIRecord := { licensee := some "SPARK NEW ZEALAND" }

def recUber : UIRecord := { licensee := some "UBER NZ" }

/-- C10: every record surviving the load-time filter has a carrier
classification other than `"uber"`; `"uber"` never appears among
`uniqueCarriers` keys, carrier buttons, or the carrier availability set —
even though the classifier itself can return `"uber"`. -/
theorem uber_never_presented :
    (∀ (data : List UIRecord) (r : UIRecord), r ∈ loadInit data →
      r.carrierKey ≠ "uber" ∧ carrierKeyFromLicensee r.licensee ≠ "uber") ∧
    (∀ data : List UIRecord, "uber" ∉ uniqueCarrierKeys data) ∧
    (∀ data : List UIRecord, "uber" ∉ carrierButtonKeys data) ∧
    (∀ (baseFiltered : List UIRecord) (bandSel : List String),
      "uber" ∉ availCarriers baseFiltered bandSel) ∧
    carrierKeyFromLicensee (some "UBER TECHNOLOGIES") = "uber" := by
  refine ⟨?_, ?_, ?_, ?_, by decide⟩
  · intro data r hr
    rw [loadInit] at hr
    obtain ⟨r0, hr0, rfl⟩ := List.mem_map.mp hr
    have hne := (List.mem_filter.mp hr0).2
    simp only [bne_iff_ne, ne_eq] at hne
    exact ⟨hne, hne⟩
  · intro data hu
    rw [uniqueCarrierKeys] at hu
    have := (List.mem_filter.mp (List.mem_dedup.mp hu)).2
    simp at this
  · intro data hu
    exact carrierButtonKeys_ne_uber data "uber" hu rfl
  · intro baseFiltered bandSel hu
    have := (List.mem_filter.mp hu).2
    simp at this

/-- Witness for C10 at a concrete two-record load: the surviving decorated
record is not `"uber"`-classified. -/
theorem uber_never_presented_witness :
    ({ recSparkUI with carrierKey := carrierKeyFromLicensee recSparkUI.licensee } :
        UIRecord).carrierKey ≠ "uber" ∧
    carrierKeyFromLicensee
        ({ recSparkUI with carrierKey := carrierKeyFromLicensee recSparkUI.licensee } :
          UIRecord).licensee ≠ "uber" :=
  uber_never_presented.1 [recUber, recSparkUI] _ (by decide)

/- ## C8: spatial clustering (the flood fill over MarkerGroups in `refresh`) -/

/-- One cluster pass's inner `while (queue.length)` loop.  `fuel` bounds the
number of iterations; each iteration pops one queue entry and moves the
unassigned entries near it into the queue, so `queue.length + 2 * un.length`
iterations always suffice (see `floodStep`).  The worklist order differs from
the source's LIFO `pop`, but cluster membership is order-independent.  Nodes
are abstract (`α` stands for MarkerGroup); `near` abstracts the source's
"haversine distance ≤ 50 m" adjacency test on the groups' coordinates. -/
def floodGo {α : Type} (near : α → α → Bool) :
    Nat → List α → List α → List α → List α × List α
  | _, comp, [], un => (comp, un)
  | 0, comp, queue, un => (comp ++ queue, un)
  | fuel + 1, comp, q :: qs, un =>
    floodGo near fuel (comp ++ [q]) (qs ++ un.filter (fun y => near q y))
      (un.filter (fun y => !near q y))

/-- The flood fill with always-sufficient fuel: returns the finished cluster
(`.1`) and the still-unassigned groups (`.2`). -/
def floodStep {α : Type} (near : α → α → Bool) (comp queue un : List α) :
    List α × List α :=
  floodGo near (queue.length + 2 * un.length) comp queue un

/-- The outer `while (unassigned.size > 0)` loop of the clustering pass:
seed a cluster with the first unassigned group, flood-fill it, continue with
the remainder.  `fuel ≥ length` always suffices (each pass removes the seed). -/
def clustersGo {α : Type} (near : α → α → Bool) : Nat → List α → List (List α)
  | _, [] => []
  | 0, l => [l]
  | fuel + 1, g :: rest =>
    (floodStep near [] [g] rest).1 ::
      clustersGo near fuel (floodStep near [] [g] rest).2

/-- One full clustering pass over the MarkerGroup list. -/
def clustersOf {α : Type} (near : α → α → Bool) (groups : List α) : List (List α) :=
  clustersGo near groups.length groups

/-- Two groups land in the same cluster of one clustering pass. -/
def sameCluster {α : Type} (near : α → α → Bool) (groups : List α) (a b : α) : Prop :=
  ∃ c ∈ clustersOf near groups, a ∈ c ∧ b ∈ c

/-- One adjacency step inside the ambient group list `l`. -/
def AdjIn {α : Type} (near : α → α → Bool) (l : List α) (x y : α) : Prop :=
  x ∈ l ∧ y ∈ l ∧ near x y = true

/-- A chain of pairwise-near groups inside `l`: the reflexive-transitive
closure the spec describes. -/
def ConnIn {α : Type} (near : α → α → Bool) (l : List α) : α → α → Prop :=
  Relation.ReflTransGen (AdjIn near l)

theorem ConnIn_mono {α : Type} (near : α → α → Bool) (l₁ l₂ : List α)
    (hsub : ∀ x ∈ l₁, x ∈ l₂) (a b : α) (h : ConnIn near l₁ a b) :
    ConnIn near l₂ a b :=
  Relation.ReflTransGen.mono (fun x y hxy => ⟨hsub x hxy.1, hsub y hxy.2.1, hxy.2.2⟩) h

theorem floodGo_rem_sublist {α : Type} (near : α → α → Bool) :
    ∀ (fuel : Nat) (comp queue un : List α),
      List.Sublist ((floodGo near fuel comp queue un).2) un := by
  intro fuel
  induction fuel with
  | zero =>
    intro comp queue un
    rcases queue with _ | ⟨q, qs⟩ <;> exact List.Sublist.refl un
  | succ fuel ih =>
    intro comp queue un
    rcases queue with _ | ⟨q, qs⟩
    · exact List.Sublist.refl un
    · exact (ih _ _ _).trans (List.filter_sublist _)

theorem length_filter_partition {α : Type} (near : α → α → Bool) (q : α) (un : List α) :
    (un.filter (fun y => near q y)).length + (un.filter (fun y => !near q y)).length =
      un.length := by
  induction un with
  | nil => rfl
  | cons x xs ih =>
    rcases h : near q x with _ | _ <;> simp [List.filter_cons, h] <;> omega

/-- Everything the flood fill finishes with is: the initial component, the
initial queue, or an unassigned node that got absorbed (left the remainder). -/
theorem floodGo_mem_fst {α : Type} (near : α → α → Bool) :
    ∀ (fuel : Nat) (comp queue un : List α) (x : α),
      x ∈ (floodGo near fuel comp queue un).1 ↔
        x ∈ comp ∨ x ∈ queue ∨
          (x ∈ un ∧ x ∉ (floodGo near fuel comp queue un).2) := by
  intro fuel
  induction fuel with
  | zero =>
    intro comp queue un x
    rcases queue with _ | ⟨q, qs⟩
    · simp [floodGo]
    · simp only [floodGo, List.mem_append]
      constructor
      · rintro (h | h)
        · exact Or.inl h
        · exact Or.inr (Or.inl h)
      · rintro (h | h | h)
        · exact Or.inl h
        · exact Or.inr h
        · exact absurd h.1 h.2
  | succ fuel ih =>
    intro comp queue un x
    rcases queue with _ | ⟨q, qs⟩
    · simp [floodGo]
    · simp only [floodGo]
      rw [ih]
      have hsub := floodGo_rem_sublist near fuel (comp ++ [q])
        (qs ++ un.filter (fun y => near q y)) (un.filter (fun y => !near q y))
      constructor
      · rintro (hc | hc | hc)
        · rcases List.mem_append.mp hc with h | h
          · exact Or.inl h
          · have hq : x = q := by simpa using h
            exact Or.inr (Or.inl (hq ▸ List.mem_cons_self q qs))
        · rcases List.mem_append.mp hc with h | h
          · exact Or.inr (Or.inl (List.mem_cons_of_mem _ h))
          · have hx := List.mem_filter.mp h
            refine Or.inr (Or.inr ⟨hx.1, fun hR => ?_⟩)
            have hrest := List.mem_filter.mp (hsub.subset hR)
            rw [hx.2] at hrest
            simp at hrest
        · have hx := List.mem_filter.mp hc.1
          exact Or.inr (Or.inr ⟨hx.1, hc.2⟩)
      · rintro (hc | hc | hc)
        · exact Or.inl (List.mem_append.mpr (Or.inl hc))
        · rcases List.mem_cons.mp hc with rfl | h
          · exact Or.inl (List.mem_append.mpr (Or.inr (List.mem_singleton_self _)))
          · exact Or.inr (Or.inl (List.mem_append.mpr (Or.inl h)))
        · by_cases hn : near q x = true
          · exact Or.inr (Or.inl (List.mem_append.mpr
              (Or.inr (List.mem_filter.mpr ⟨hc.1, by simpa using hn⟩))))
          · exact Or.inr (Or.inr ⟨List.mem_filter.mpr ⟨hc.1, by simpa using hn⟩, hc.2⟩)

/-- With sufficient fuel, no finished-component node is near any node left
unassigned (that is what makes the component maximal). -/
theorem floodGo_no_edge {α : Type} (near : α → α → Bool) :
    ∀ (fuel : Nat) (comp queue un : List α),
      queue.length + 2 * un.length ≤ fuel →
      (∀ x ∈ comp, ∀ y ∈ un, near x y = false) →
      ∀ x ∈ (floodGo near fuel comp queue un).1,
        ∀ y ∈ (floodGo near fuel comp queue un).2, near x y = false := by
  intro fuel
  induction fuel with
  | zero =>
    intro comp queue un hfuel hcomp
    rcases queue with _ | ⟨q, qs⟩
    · simpa [floodGo] using hcomp
    · simp at hfuel
  | succ fuel ih =>
    intro comp queue un hfuel hcomp
    rcases queue with _ | ⟨q, qs⟩
    · simpa [floodGo] using hcomp
    · simp only [floodGo]
      apply ih
      · have hpart := length_filter_partition near q un
        have hlen : (un.filter (fun y => !near q y)).length ≤ un.length :=
          List.length_filter_le _ _
        simp only [List.length_append, List.length_cons] at hfuel ⊢
        omega
      · intro x hx y hy
        rcases List.mem_append.mp hx with h | h
        · exact hcomp x h y ((List.filter_sublist un).subset hy)
        · have hq : x = q := by simpa using h
          subst hq
          simpa using (List.mem_filter.mp hy).2

/-- Everything the flood fill finishes with is chain-connected to the seeds
inside any ambient list containing the queue and the unassigned pool. -/
theorem floodGo_connected {α : Type} (near : α → α → Bool) (l : List α) (root : α) :
    ∀ (fuel : Nat) (comp queue un : List α),
      (∀ x ∈ comp, ConnIn near l root x) →
      (∀ x ∈ queue, ConnIn near l root x) →
      (∀ x ∈ queue, x ∈ l) → (∀ x ∈ un, x ∈ l) →
      ∀ x ∈ (floodGo near fuel comp queue un).1, ConnIn near l root x := by
  intro fuel
  induction fuel with
  | zero =>
    intro comp queue un hcomp hqueue hql hul
    rcases queue with _ | ⟨q, qs⟩
    · simpa [floodGo] using hcomp
    · intro x hx
      have hx' : x ∈ comp ∨ x = q ∨ x ∈ qs := by simpa [floodGo] using hx
      rcases hx' with h | h | h
      · exact hcomp x h
      · exact h ▸ hqueue q (List.mem_cons_self _ _)
      · exact hqueue x (List.mem_cons_of_mem _ h)
  | succ fuel ih =>
    intro comp queue un hcomp hqueue hql hul
    rcases queue with _ | ⟨q, qs⟩
    · simpa [floodGo] using hcomp
    · simp only [floodGo]
      apply ih
      · intro x hx
        rcases List.mem_append.mp hx with h | h
        · exact hcomp x h
        · have hq : x = q := by simpa using h
          exact hq ▸ hqueue q (List.mem_cons_self _ _)
      · intro x hx
        rcases List.mem_append.mp hx with h | h
        · exact hqueue x (List.mem_cons_of_mem _ h)
        · have hm := List.mem_filter.mp h
          refine Relation.ReflTransGen.tail (hqueue q (List.mem_cons_self _ _)) ?_
          exact ⟨hql q (List.mem_cons_self _ _), hul x hm.1, by simpa using hm.2⟩
      · intro x hx
        rcases List.mem_append.mp hx with h | h
        · exact hql x (List.mem_cons_of_mem _ h)
        · exact hul x (List.mem_filter.mp h).1
      · intro x hx
        exact hul x ((List.filter_sublist un).subset hx)

theorem floodStep_mem_fst {α : Type} (near : α → α → Bool) (comp queue un : List α)
    (x : α) :
    x ∈ (floodStep near comp queue un).1 ↔
      x ∈ comp ∨ x ∈ queue ∨ (x ∈ un ∧ x ∉ (floodStep near comp queue un).2) :=
  floodGo_mem_fst near _ comp queue un x

theorem floodStep_rem_sublist {α : Type} (near : α → α → Bool) (comp queue un : List α) :
    List.Sublist ((floodStep near comp queue un).2) un :=
  floodGo_rem_sublist near _ comp queue un

theorem floodStep_no_edge {α : Type} (near : α → α → Bool) (comp queue un : List α)
    (hcomp : ∀ x ∈ comp, ∀ y ∈ un, near x y = false) :
    ∀ x ∈ (floodStep near comp queue un).1,
      ∀ y ∈ (floodStep near comp queue un).2, near x y = false :=
  floodGo_no_edge near _ comp queue un le_rfl hcomp

theorem clustersGo_subset {α : Type} (near : α → α → Bool) :
    ∀ (fuel : Nat) (l c : List α), c ∈ clustersGo near fuel l → ∀ x ∈ c, x ∈ l := by
  intro fuel
  induction fuel with
  | zero =>
    intro l c hc x hx
    rcases l with _ | ⟨g, rest⟩
    · simp [clustersGo] at hc
    · have hcl : c = g :: rest := by simpa [clustersGo] using hc
      exact hcl ▸ hx
  | succ fuel ih =>
    intro l c hc x hx
    rcases l with _ | ⟨g, rest⟩
    · simp [clustersGo] at hc
    · rcases List.mem_cons.mp (by simpa [clustersGo] using hc) with rfl | hc'
      · rcases (floodStep_mem_fst near [] [g] rest x).mp hx with h | h | h
        · simp at h
        · have hg : x = g := by simpa using h
          exact hg ▸ List.mem_cons_self _ _
        · exact List.mem_cons_of_mem _ h.1
      · exact List.mem_cons_of_mem _
          ((floodStep_rem_sublist near [] [g] rest).subset (ih _ c hc' x hx))

theorem clustersGo_cover {α : Type} (near : α → α → Bool) :
    ∀ (fuel : Nat) (l : List α), l.length ≤ fuel →
      ∀ x ∈ l, ∃ c ∈ clustersGo near fuel l, x ∈ c := by
  intro fuel
  induction fuel with
  | zero =>
    intro l hlen x hx
    rcases l with _ | ⟨g, rest⟩
    · simp at hx
    · simp at hlen
  | succ fuel ih =>
    intro l hlen x hx
    rcases l with _ | ⟨g, rest⟩
    · simp at hx
    · simp only [clustersGo]
      by_cases hR : x ∈ (floodStep near [] [g] rest).2
      · have hlen' : (floodStep near [] [g] rest).2.length ≤ fuel :=
          le_trans (List.Sublist.length_le (floodStep_rem_sublist near [] [g] rest))
            (by simpa using hlen)
        obtain ⟨c, hc, hxc⟩ := ih _ hlen' x hR
        exact ⟨c, List.mem_cons_of_mem _ hc, hxc⟩
      · refine ⟨(floodStep near [] [g] rest).1, List.mem_cons_self _ _, ?_⟩
        rcases List.mem_cons.mp hx with heq | hx'
        · exact (floodStep_mem_fst near [] [g] rest x).mpr
            (Or.inr (Or.inl (by rw [heq]; exact List.mem_singleton_self _)))
        · exact (floodStep_mem_fst near [] [g] rest x).mpr
            (Or.inr (Or.inr ⟨hx', hR⟩))

theorem clustersGo_closed {α : Type} (near : α → α → Bool)
    (hsym : ∀ a b : α, near a b = near b a) :
    ∀ (fuel : Nat) (l : List α), l.length ≤ fuel →
      ∀ c ∈ clustersGo near fuel l, ∀ x ∈ c, ∀ y ∈ l, near x y = true → y ∈ c := by
  intro fuel
  induction fuel with
  | zero =>
    intro l hlen c hc x hx y hy hnear
    rcases l with _ | ⟨g, rest⟩
    · simp [clustersGo] at hc
    · simp at hlen
  | succ fuel ih =>
    intro l hlen c hc x hx y hy hnear
    rcases l with _ | ⟨g, rest⟩
    · simp [clustersGo] at hc
    · have hlen' : (floodStep near [] [g] rest).2.length ≤ fuel :=
        le_trans (List.Sublist.length_le (floodStep_rem_sublist near [] [g] rest))
          (by simpa using hlen)
      rcases List.mem_cons.mp (by simpa [clustersGo] using hc) with rfl | hc'
      · by_cases hyc : y ∈ (floodStep near [] [g] rest).1
        · exact hyc
        · exfalso
          have hyR : y ∈ (floodStep near [] [g] rest).2 := by
            rcases List.mem_cons.mp hy with heq | hy'
            · exact absurd ((floodStep_mem_fst near [] [g] rest y).mpr
                (Or.inr (Or.inl (by rw [heq]; exact List.mem_singleton_self _)))) hyc
            · by_cases h : y ∈ (floodStep near [] [g] rest).2
              · exact h
              · exact absurd ((floodStep_mem_fst near [] [g] rest y).mpr
                  (Or.inr (Or.inr ⟨hy', h⟩))) hyc
          have hedge := floodStep_no_edge near [] [g] rest (by simp) x hx y hyR
          rw [hnear] at hedge
          cases hedge
      · have hxR : x ∈ (floodStep near [] [g] rest).2 :=
          clustersGo_subset near fuel _ c hc' x hx
        have hyC : y ∉ (floodStep near [] [g] rest).1 := by
          intro hyC
          have hedge := floodStep_no_edge near [] [g] rest (by simp) y hyC x hxR
          have hxy : near y x = true := by rw [← hsym x y]; exact hnear
          rw [hedge] at hxy
          cases hxy
        have hyR : y ∈ (floodStep near [] [g] rest).2 := by
          rcases List.mem_cons.mp hy with heq | hy'
          · exact absurd ((floodStep_mem_fst near [] [g] rest y).mpr
              (Or.inr (Or.inl (by rw [heq]; exact List.mem_singleton_self _)))) hyC
          · by_cases h : y ∈ (floodStep near [] [g] rest).2
            · exact h
            · exact absurd ((floodStep_mem_fst near [] [g] rest y).mpr
                (Or.inr (Or.inr ⟨hy', h⟩))) hyC
        exact ih _ hlen' c hc' x hx y hyR hnear

theorem clustersGo_sound {α : Type} (near : α → α → Bool)
    (hsym : ∀ a b : α, near a b = near b a) :
    ∀ (fuel : Nat) (l : List α), l.length ≤ fuel →
      ∀ c ∈ clustersGo near fuel l, ∀ x ∈ c, ∀ y ∈ c, ConnIn near l x y := by
  intro fuel
  induction fuel with
  | zero =>
    intro l hlen c hc x hx y hy
    rcases l with _ | ⟨g, rest⟩
    · simp [clustersGo] at hc
    · simp at hlen
  | succ fuel ih =>
    intro l hlen c hc x hx y hy
    rcases l with _ | ⟨g, rest⟩
    · simp [clustersGo] at hc
    · have hlen' : (floodStep near [] [g] rest).2.length ≤ fuel :=
        le_trans (List.Sublist.length_le (floodStep_rem_sublist near [] [g] rest))
          (by simpa using hlen)
      rcases List.mem_cons.mp (by simpa [clustersGo] using hc) with rfl | hc'
      · have hall : ∀ z ∈ (floodStep near [] [g] rest).1, ConnIn near (g :: rest) g z := by
          apply floodGo_connected near (g :: rest) g _ [] [g] rest
          · intro z hz
            simp at hz
          · intro z hz
            have hg : z = g := by simpa using hz
            exact hg ▸ Relation.ReflTransGen.refl
          · intro z hz
            have hg : z = g := by simpa using hz
            exact hg ▸ List.mem_cons_self _ _
          · intro z hz
            exact List.mem_cons_of_mem _ hz
        have hsymAdj : Symmetric (AdjIn near (g :: rest)) := by
          intro u v huv
          exact ⟨huv.2.1, huv.1, by rw [← hsym u v]; exact huv.2.2⟩
        have hxg : ConnIn near (g :: rest) x g :=
          (Relation.ReflTransGen.symmetric hsymAdj) (hall x hx)
        exact Relation.ReflTransGen.trans hxg (hall y hy)
      · exact ConnIn_mono near _ _
          (fun z hz => List.mem_cons_of_mem _
            ((floodStep_rem_sublist near [] [g] rest).subset hz))
          x y (ih _ hlen' c hc' x hx y hy)

/-- C8: in one clustering pass, two MarkerGroups share a Cluster exactly when
a chain of pairwise-near groups inside the input connects them (`ConnIn`, the
reflexive-transitive closure of the adjacency test); hence sharing a cluster
is transitive; and re-running the pass on the same input — the same pure
function on the same argument — yields the identical cluster list, so no
cluster is ever split across a refresh of the same input. -/
theorem clustering_transitive_closure {α : Type} (near : α → α → Bool)
    (hsym : ∀ a b : α, near a b = near b a) (groups : List α) :
    (∀ a b : α, sameCluster near groups a b ↔
      (a ∈ groups ∧ b ∈ groups ∧ ConnIn near groups a b)) ∧
    (∀ a b c : α, sameCluster near groups a b → sameCluster near groups b c →
      sameCluster near groups a c) ∧
    clustersOf near groups = clustersOf near groups := by
  have hiff : ∀ a b : α, sameCluster near groups a b ↔
      (a ∈ groups ∧ b ∈ groups ∧ ConnIn near groups a b) := by
    intro a b
    constructor
    · rintro ⟨c, hc, ha, hb⟩
      exact ⟨clustersGo_subset near groups.length groups c hc a ha,
        clustersGo_subset near groups.length groups c hc b hb,
        clustersGo_sound near hsym groups.length groups le_rfl c hc a ha b hb⟩
    · rintro ⟨hag, hbg, hconn⟩
      obtain ⟨c, hc, hac⟩ := clustersGo_cover near groups.length groups le_rfl a hag
      refine ⟨c, hc, hac, ?_⟩
      clear hbg
      induction hconn with
      | refl => exact hac
      | tail hxz hstep ih2 =>
        exact clustersGo_closed near hsym groups.length groups le_rfl c hc _ ih2 _
          hstep.2.1 hstep.2.2
  refine ⟨hiff, ?_, rfl⟩
  intro a b c hab hbc
  obtain ⟨hag, hbg, h1⟩ := (hiff a b).mp hab
  obtain ⟨-, hcg, h2⟩ := (hiff b c).mp hbc
  exact (hiff a c).mpr ⟨hag, hcg, Relation.ReflTransGen.trans h1 h2⟩

/-- A symmetric three-point adjacency for the C8 witness: 0-1 and 1-2 are
near, 0-2 only through the chain. -/
def nearEx : Fin 3 → Fin 3 → Bool := fun a b =>
  a == b || a.val + 1 == b.val || b.val + 1 == a.val

/-- Witness for C8: 0 and 1 share a cluster, 1 and 2 share a cluster, hence 0
and 2 share a cluster (transitive closure through the chain 0-1-2). -/
theorem clustering_transitive_closure_witness :
    sameCluster nearEx [0, 1, 2] 0 2 :=
  (clustering_transitive_closure nearEx (by decide) [0, 1, 2]).2.1 0 1 2
    (by unfold sameCluster; decide) (by unfold sameCluster; decide)
